import Mathlib

/-!
Verification of the WRPF records dashboard (src/dash.py).

The development shallowly embeds the data pipeline of dash.py:

* raw CSV rows (as produced by pandas.read_csv) are `RawRow` values whose
  cells are `Option String`; a missing/empty CSV cell is `none` (pandas
  reads empty fields as NaN);
* `load_data` embeds the row-wise part of dash.py's load_data (lines
  27-42): the notna filter on Full Name and Weight, the numeric coercion
  of Weight, the Class strip and artefact filter, the Division_raw /
  Division_base / Testing derivations, the Lift code mapping, and the
  fillna("") of Record Type, Lift and Record Name.  The Date_parsed
  column is omitted: no property below mentions it;
* `apply_filters` embeds dash.py lines 115-132, `best_per_class_and_lift`
  lines 137-148, and the Full Power / Single Lifts tab masks lines
  263-268.

Numeric parsing (pandas.to_numeric) is embedded by `parseNum`, which
accepts optionally signed decimal literals and represents the value
exactly as a mantissa/scale pair `Dec` (value m / 10^e); scientific
notation is out of scope (no claim involves it).  String comparison
(Python str ordering) is code-point lexicographic (`charListLT`); Python
case-insensitive matching is embedded by ASCII lowercasing (`lowerChar`).
pandas Series.str.contains interprets its pattern as a regular
expression; the fragment actually reachable from the claims (literal
characters, the dot wildcard, top-level alternation) is embedded by
`splitBar`/`tokOf`/`findMatch`.  The claim theorems instantiate it only
at the two fixed tab patterns and the single-dot pattern, which lie
inside the fragment, and at search patterns free of every Python regex
metacharacter (`mcFree`), on which the fragment and the full regex
semantics both degenerate to literal substring search.
-/

/-! ### Character and string primitives -/

/-- Whitespace test used by Python str.strip / pandas str.strip. -/
def isWS (c : Char) : Bool :=
  c == ' ' || c == '\t' || c == '\n' || c == '\r' || c == '\x0b' || c == '\x0c'

/-- Strip leading and trailing whitespace from a character list. -/
def trimL (l : List Char) : List Char :=
  (((l.dropWhile isWS).reverse.dropWhile isWS)).reverse

/-- Python str.strip on a string (ASCII whitespace). -/
def strTrim (s : String) : String := ⟨trimL s.data⟩

/-- ASCII lowercasing of one character (Python str.lower / re.IGNORECASE
restricted to ASCII, which covers all data in the claims). -/
def lowerChar : Char → Char
  | 'A' => 'a' | 'B' => 'b' | 'C' => 'c' | 'D' => 'd' | 'E' => 'e'
  | 'F' => 'f' | 'G' => 'g' | 'H' => 'h' | 'I' => 'i' | 'J' => 'j'
  | 'K' => 'k' | 'L' => 'l' | 'M' => 'm' | 'N' => 'n' | 'O' => 'o'
  | 'P' => 'p' | 'Q' => 'q' | 'R' => 'r' | 'S' => 's' | 'T' => 't'
  | 'U' => 'u' | 'V' => 'v' | 'W' => 'w' | 'X' => 'x' | 'Y' => 'y'
  | 'Z' => 'z' | c => c

/-- ASCII lowercasing of a string. -/
def lowerStr (s : String) : String := ⟨s.data.map lowerChar⟩

/-- Code-point lexicographic strict order on character lists
(Python string comparison, used by pandas when sorting object columns). -/
def charListLT : List Char → List Char → Bool
  | [], [] => false
  | [], _ :: _ => true
  | _ :: _, [] => false
  | c :: cs, d :: ds =>
    if c.toNat < d.toNat then true
    else if d.toNat < c.toNat then false
    else charListLT cs ds

/-- Python string strict order on strings. -/
def strLT (a b : String) : Bool := charListLT a.data b.data

/-! ### Decimal numbers (pandas.to_numeric) -/

/-- An exactly represented decimal number: the value m / 10 ^ e. -/
structure Dec where
  m : Int
  e : Nat
deriving DecidableEq, Repr

/-- Ten to a natural power, as an integer. -/
def pow10 (e : Nat) : Int := Int.ofNat (10 ^ e)

/-- Accumulate decimal digits; fails on a non-digit character. -/
def digitsAux (acc : Nat) : List Char → Option Nat
  | [] => some acc
  | c :: cs => if c.isDigit then digitsAux (10 * acc + (c.toNat - 48)) cs else none

/-- Split a character list at the first dot, if any. -/
def splitDotL : List Char → List Char × Option (List Char)
  | [] => ([], none)
  | c :: cs =>
    if c = '.' then ([], some cs)
    else
      let p := splitDotL cs
      (c :: p.1, p.2)

/-- Apply an optional minus sign. -/
def intSign (neg : Bool) (n : Nat) : Int := if neg then -(n : Int) else (n : Int)

/-- pandas.to_numeric with errors="coerce" on a string cell: parse an
optionally signed decimal literal, returning none (NaN) on failure.
Scientific notation is not modelled (unused by every claim). -/
def parseNum (s : String) : Option Dec :=
  let t := trimL s.data
  let signSplit : Bool × List Char :=
    match t with
    | '-' :: r => (true, r)
    | '+' :: r => (false, r)
    | _ => (false, t)
  let body := signSplit.2
  let p := splitDotL body
  match p.2 with
  | none =>
    if p.1 = [] then none
    else (digitsAux 0 p.1).map fun i => ⟨intSign signSplit.1 i, 0⟩
  | some f =>
    if p.1 = [] ∧ f = [] then none
    else
      match digitsAux 0 p.1, digitsAux 0 f with
      | some i, some fv => some ⟨intSign signSplit.1 (i * 10 ^ f.length + fv), f.length⟩
      | _, _ => none

/-- Strict order on optional decimals with NaN (none) largest, matching
how a NaN sort key is placed last by pandas sort_values. -/
def dLT : Option Dec → Option Dec → Bool
  | some a, some b => decide (a.m * pow10 b.e < b.m * pow10 a.e)
  | some _, none => true
  | none, _ => false

/-- Weight comparison for the descending sort of best_per_class_and_lift:
a NaN weight compares below every number (pandas puts NaN rows last when
sorting by Weight descending). -/
def wGE : Option Dec → Option Dec → Bool
  | _, none => true
  | none, some _ => false
  | some x, some y => decide (y.m * pow10 x.e ≤ x.m * pow10 y.e)

/-! ### The regular-expression fragment of pandas Series.str.contains -/

/-- One token of a regex alternative: a literal character or the dot
wildcard. -/
inductive Tok where
  | lit (c : Char)
  | dot
deriving DecidableEq, Repr

/-- Interpret one pattern character as a token. -/
def tokOf (c : Char) : Tok := if c = '.' then Tok.dot else Tok.lit c

/-- Split a pattern at top-level alternation bars. -/
def splitBar : List Char → List (List Char)
  | [] => [[]]
  | c :: cs =>
    let rest := splitBar cs
    if c = '|' then [] :: rest
    else
      match rest with
      | [] => [[c]]
      | a :: as => (c :: a) :: as

/-- Does a token match a character. -/
def matchTok : Tok → Char → Bool
  | Tok.dot, _ => true
  | Tok.lit c, d => c == d

/-- Do the tokens match a leading segment of the subject. -/
def matchPre : List Tok → List Char → Bool
  | [], _ => true
  | _ :: _, [] => false
  | t :: ts, c :: cs => matchTok t c && matchPre ts cs

/-- Does the token sequence match anywhere in the subject (re.search). -/
def findMatch (ts : List Tok) : List Char → Bool
  | [] => matchPre ts []
  | c :: cs => matchPre ts (c :: cs) || findMatch ts cs

/-- pandas Series.str.contains with regex=True (default): the pattern is
split at alternation bars and each alternative is a sequence of literal
or dot tokens searched anywhere in the subject. -/
def regexContains (pat s : String) : Bool :=
  (splitBar pat.data).any fun a => findMatch (a.map tokOf) s.data

/-- pandas Series.str.contains with case=False: both pattern and subject
are lowercased. -/
def strContainsCI (pat s : String) : Bool :=
  regexContains (lowerStr pat) (lowerStr s)

/-- Literal (non-regex) substring containment. -/
def litContains (pat s : String) : Bool :=
  findMatch (pat.data.map Tok.lit) s.data

/-- Case-insensitive literal substring containment; this is the reading
the specification gives to the search filter. -/
def litContainsCI (pat s : String) : Bool :=
  litContains (lowerStr pat) (lowerStr s)

/-- The characters Python's re module treats as special: dot, bar, star,
plus, question mark, parentheses, square brackets, both curly braces,
caret, dollar and backslash. -/
def METACHARS : List Char :=
  ['.', '|', '*', '+', '?', '(', ')', '[', ']', '\x7b', '\x7d', '^', '$', '\\']

/-- A pattern free of every regular-expression metacharacter.  On such
patterns re.search performs plain literal substring search, so on them
the modelled fragment and the full Python regex semantics coincide. -/
def mcFree (s : String) : Bool :=
  s.data.all fun c => !(decide (c ∈ METACHARS))

/-! ### Data model -/

/-- One raw CSV row as read by pandas.read_csv: each cell is present
(`some`) or NaN (`none`); pandas reads an empty CSV field as NaN. -/
structure RawRow where
  fullName : Option String
  weight : Option String
  weightClass : Option String
  division : Option String
  lift : Option String
  recordType : Option String
  recordName : Option String
  sex : Option String
  equipment : Option String
  date : Option String
  location : Option String
deriving DecidableEq, Repr

/-- One normalized record as produced by load_data.  Fields that
dash.py fills with "" (Full Name is guaranteed present; Record Type,
Lift and Record Name get fillna("")) are plain strings; fields the code
leaves unfilled stay optional (NaN = none). -/
structure Record where
  fullName : String
  weight : Option Dec
  weightClass : String
  divisionRaw : Option String
  divisionBase : Option String
  testing : Option String
  lift : String
  recordType : String
  recordName : String
  sex : Option String
  equipment : Option String
  date : Option String
  location : Option String
deriving DecidableEq, Repr

/-- LIFT_MAP of dash.py line 14. -/
def LIFT_MAP : List (String × String) :=
  [("S", "Squat"), ("B", "Bench"), ("D", "Deadlift"), ("T", "Total"), ("Total", "Total")]

/-- LIFT_ORDER of dash.py line 15. -/
def LIFT_ORDER : List String := ["Squat", "Bench", "Deadlift", "Total"]

/-- INVALID_WEIGHT_CLASSES of dash.py line 16. -/
def INVALID_WEIGHT_CLASSES : List String := ["736", "737", "738", "739", "cell"]

/-- Does a string end with the two characters "DT" (str.endswith). -/
def endsDT (s : String) : Bool := s.data.reverse.take 2 == ['T', 'D']

/-- str.replace(r"DT$", "", regex=True): remove one trailing "DT" if
present (the anchored pattern can match at most once; the input is
already stripped, so the end-of-string anchor is exact). -/
def stripDT (s : String) : String :=
  if endsDT s then ⟨(s.data.reverse.drop 2).reverse⟩ else s

/-- Does a string end with "DTDT". -/
def endsDTDT (s : String) : Bool := s.data.reverse.take 4 == ['T', 'D', 'T', 'D']

/-- Combined effect on the Lift column: replace(LIFT_MAP) maps the known
codes, leaves other strings unchanged and keeps NaN; the later
fillna("") on the Lift column turns NaN into "". -/
def mapLift : Option String → String
  | none => ""
  | some s =>
    match LIFT_MAP.lookup s with
    | some v => v
    | none => s

/-- Class column normalization: astype(str) renders NaN as "nan", then
str.strip. -/
def classStr : Option String → String
  | some s => strTrim s
  | none => "nan"

/-- Row-wise body of load_data (dash.py lines 30-42): keep the row only
if Full Name and Weight are present and the stripped Class is not an
artefact value; derive the division, testing, lift and filled fields. -/
def normRow (row : RawRow) : Option Record :=
  match row.fullName, row.weight with
  | some name, some w =>
    let cls := classStr row.weightClass
    if cls ∈ INVALID_WEIGHT_CLASSES then none
    else
      let dRaw := row.division.map strTrim
      some
        { fullName := name
          weight := parseNum w
          weightClass := cls
          divisionRaw := dRaw
          divisionBase := dRaw.map stripDT
          testing := dRaw.map fun d => if endsDT d then "Tested" else "Untested"
          lift := mapLift row.lift
          recordType := row.recordType.getD ""
          recordName := row.recordName.getD ""
          sex := row.sex
          equipment := row.equipment
          date := row.date
          location := row.location }
  | _, _ => none

/-- load_data of dash.py: the table of retained, normalized records. -/
def load_data (rows : List RawRow) : List Record := rows.filterMap normRow

/-! ### Query engine -/

/-- The filter selection built by inline_filters / sidebar_filters. -/
structure Selection where
  sex : String
  division : String
  testing_status : String
  equipment : String
  weight_class : String
  search : String
deriving DecidableEq, Repr

/-- apply_filters of dash.py lines 115-132.  Each dropdown filters by
exact equality unless it is the "All" sentinel; a non-empty search keeps
rows whose Full Name or Record Name matches the search text as a
case-insensitive regular expression (pandas str.contains semantics,
na=False; Full Name and Record Name are never NaN after load_data). -/
def apply_filters (df : List Record) (sel : Selection) : List Record :=
  let f1 := if sel.sex ≠ "All" then df.filter (fun r => r.sex == some sel.sex) else df
  let f2 := if sel.division ≠ "All" then
      f1.filter (fun r => r.divisionBase == some sel.division) else f1
  let f3 := if sel.testing_status ≠ "All" then
      f2.filter (fun r => r.testing == some sel.testing_status) else f2
  let f4 := if sel.equipment ≠ "All" then
      f3.filter (fun r => r.equipment == some sel.equipment) else f3
  let f5 := if sel.weight_class ≠ "All" then
      f4.filter (fun r => r.weightClass == sel.weight_class) else f4
  if sel.search ≠ "" then
    f5.filter (fun r => strContainsCI sel.search r.fullName
      || strContainsCI sel.search r.recordName)
  else f5

/-- The Full Power tab mask (dash.py line 263): drop records whose
Record Type contains "Single" case-insensitively. -/
def full_power_records (rs : List Record) : List Record :=
  rs.filter fun r => !(strContainsCI "Single" r.recordType)

/-- The Single Lifts tab mask (dash.py lines 267-268): Record Type must
match the pattern "Single|Bench Only|Deadlift Only" case-insensitively
and Lift must be Bench or Deadlift. -/
def single_lifts_records (rs : List Record) : List Record :=
  rs.filter fun r =>
    strContainsCI "Single|Bench Only|Deadlift Only" r.recordType
      && ["Bench", "Deadlift"].contains r.lift

/-- The deduplication key of drop_duplicates(subset=["Class", "Lift"]). -/
def keyCL (r : Record) : String × String := (r.weightClass, r.lift)

/-- drop_duplicates keep="first": keep a row only when its key was not
seen earlier. -/
def dedupCL : List Record → List (String × String) → List Record
  | [], _ => []
  | r :: rs, seen =>
    if keyCL r ∈ seen then dedupCL rs seen
    else r :: dedupCL rs (keyCL r :: seen)

/-- The _class_num helper column: pd.to_numeric(Class, errors="coerce"). -/
def classNumD (r : Record) : Option Dec := parseNum r.weightClass

/-- The _lift_order helper column: LIFT_ORDER.index(x) if x in
LIFT_ORDER else 99. -/
def liftIdx (s : String) : Nat :=
  if s ∈ LIFT_ORDER then LIFT_ORDER.indexOf s else 99

/-- The descending Weight sort relation (sort_values("Weight",
ascending=False), NaN last). -/
def wDescRel (r s : Record) : Prop := wGE r.weight s.weight = true

instance : DecidableRel wDescRel := fun r s =>
  inferInstanceAs (Decidable (wGE r.weight s.weight = true))

/-- The final sort key comparison of best_per_class_and_lift:
lexicographically by _class_num (NaN last), then by the Class string,
then by _lift_order (sort_values(["_class_num", "Class", "_lift_order"])). -/
def sortKeyLE (r s : Record) : Bool :=
  if dLT (classNumD r) (classNumD s) then true
  else if dLT (classNumD s) (classNumD r) then false
  else if strLT r.weightClass s.weightClass then true
  else if strLT s.weightClass r.weightClass then false
  else decide (liftIdx r.lift ≤ liftIdx s.lift)

/-- The final sort relation as a Prop. -/
def sortRel (r s : Record) : Prop := sortKeyLE r s = true

instance : DecidableRel sortRel := fun r s =>
  inferInstanceAs (Decidable (sortKeyLE r s = true))

/-- best_per_class_and_lift of dash.py lines 137-148: sort by Weight
descending (NaN last), keep the first row of every (Class, Lift) pair,
then sort by (_class_num, Class, _lift_order).  pandas sort_values uses
an unstable quicksort, so the order among rows with fully equal keys is
incidental there; the claims below do not depend on it and the embedding
uses a stable insertion sort. -/
def best_per_class_and_lift (df : List Record) : List Record :=
  List.insertionSort sortRel (dedupCL (List.insertionSort wDescRel df) [])

/-- The ordering the specification claims for the output of
best_per_class_and_lift: primarily by numeric class value ascending with
non-numeric classes after all numeric ones ordered by string value,
secondarily by the fixed lift order — with no string tie-break between
numerically equal classes. -/
def claimLE (r s : Record) : Bool :=
  match classNumD r, classNumD s with
  | some x, some y =>
    if dLT (some x) (some y) then true
    else if dLT (some y) (some x) then false
    else decide (liftIdx r.lift ≤ liftIdx s.lift)
  | some _, none => true
  | none, some _ => false
  | none, none =>
    if strLT r.weightClass s.weightClass then true
    else if strLT s.weightClass r.weightClass then false
    else decide (liftIdx r.lift ≤ liftIdx s.lift)


/-! ### Concrete sample inputs used by the claim theorems -/

/-- The selection in which every dropdown is the "All" sentinel and the
search box is empty. -/
def allSel : Selection :=
  { sex := "All"
    division := "All"
    testing_status := "All"
    equipment := "All"
    weight_class := "All"
    search := "" }

/-- A selection that only searches. -/
def searchSel (q : String) : Selection :=
  { sex := "All"
    division := "All"
    testing_status := "All"
    equipment := "All"
    weight_class := "All"
    search := q }

/-- A raw row whose Weight cell is present but not numeric. -/
def c1rowBad : RawRow :=
  { fullName := some "A"
    weight := some "abc"
    weightClass := some "90"
    division := none
    lift := none
    recordType := none
    recordName := none
    sex := none
    equipment := none
    date := none
    location := none }

/-- The record load_data produces for c1rowBad. -/
def c1recBad : Record :=
  { fullName := "A"
    weight := none
    weightClass := "90"
    divisionRaw := none
    divisionBase := none
    testing := none
    lift := ""
    recordType := ""
    recordName := ""
    sex := none
    equipment := none
    date := none
    location := none }

/-- A raw row with a missing Full Name cell (pandas reads the empty CSV
field of the specification scenario as NaN). -/
def c1rowNoName : RawRow :=
  { fullName := none
    weight := some "100"
    weightClass := some "90"
    division := none
    lift := none
    recordType := none
    recordName := none
    sex := none
    equipment := none
    date := none
    location := none }

/-- A squat record of weight 100 in a non-numeric class. -/
def c2recA : Record :=
  { fullName := "A"
    weight := some (Dec.mk 100 0)
    weightClass := "SHW"
    divisionRaw := none
    divisionBase := none
    testing := none
    lift := "Squat"
    recordType := ""
    recordName := ""
    sex := none
    equipment := none
    date := none
    location := none }

/-- A squat record of weight 200 in the same class as c2recA. -/
def c2recB : Record :=
  { fullName := "B"
    weight := some (Dec.mk 200 0)
    weightClass := "SHW"
    divisionRaw := none
    divisionBase := none
    testing := none
    lift := "Squat"
    recordType := ""
    recordName := ""
    sex := none
    equipment := none
    date := none
    location := none }

/-- A record named John Doe with an empty record name. -/
def c3john : Record :=
  { fullName := "John Doe"
    weight := none
    weightClass := "90"
    divisionRaw := none
    divisionBase := none
    testing := none
    lift := ""
    recordType := ""
    recordName := ""
    sex := none
    equipment := none
    date := none
    location := none }

/-- A record named June Smith with an empty record name. -/
def c3june : Record :=
  { fullName := "June Smith"
    weight := none
    weightClass := "90"
    divisionRaw := none
    divisionBase := none
    testing := none
    lift := ""
    recordType := ""
    recordName := ""
    sex := none
    equipment := none
    date := none
    location := none }

/-- A raw row in division JuniorDT (the Weight cell is non-numeric so
that the produced record is a closed term free of arithmetic). -/
def c4row : RawRow :=
  { fullName := some "A"
    weight := some "x"
    weightClass := some "90"
    division := some "JuniorDT"
    lift := none
    recordType := none
    recordName := none
    sex := none
    equipment := none
    date := none
    location := none }

/-- The record load_data produces for c4row. -/
def c4rec : Record :=
  { fullName := "A"
    weight := none
    weightClass := "90"
    divisionRaw := some "JuniorDT"
    divisionBase := some "Junior"
    testing := some "Tested"
    lift := ""
    recordType := ""
    recordName := ""
    sex := none
    equipment := none
    date := none
    location := none }

/-- A raw row whose division is exactly "DT". -/
def c4rowDT : RawRow :=
  { fullName := some "A"
    weight := some "x"
    weightClass := some "90"
    division := some "DT"
    lift := none
    recordType := none
    recordName := none
    sex := none
    equipment := none
    date := none
    location := none }

/-- A raw row whose division is "DTDT". -/
def c5row : RawRow :=
  { fullName := some "A"
    weight := some "x"
    weightClass := some "90"
    division := some "DTDT"
    lift := none
    recordType := none
    recordName := none
    sex := none
    equipment := none
    date := none
    location := none }

/-- The record load_data produces for c5row. -/
def c5rec : Record :=
  { fullName := "A"
    weight := none
    weightClass := "90"
    divisionRaw := some "DTDT"
    divisionBase := some "DT"
    testing := some "Tested"
    lift := ""
    recordType := ""
    recordName := ""
    sex := none
    equipment := none
    date := none
    location := none }

/-- A raw row whose Sex cell (among others) is missing. -/
def c6row : RawRow :=
  { fullName := some "A"
    weight := some "x"
    weightClass := some "90"
    division := none
    lift := none
    recordType := none
    recordName := none
    sex := none
    equipment := none
    date := none
    location := none }

/-- The record load_data produces for c6row. -/
def c6rec : Record :=
  { fullName := "A"
    weight := none
    weightClass := "90"
    divisionRaw := none
    divisionBase := none
    testing := none
    lift := ""
    recordType := ""
    recordName := ""
    sex := none
    equipment := none
    date := none
    location := none }

/-- A standalone bench record whose type mentions Bench Only. -/
def c7bench : Record :=
  { fullName := "B"
    weight := none
    weightClass := "90"
    divisionRaw := none
    divisionBase := none
    testing := none
    lift := "Bench"
    recordType := "Bench Only"
    recordName := ""
    sex := none
    equipment := none
    date := none
    location := none }

/-- A squat record in the string class "90.0" (numeric value 90). -/
def c8recX : Record :=
  { fullName := "X"
    weight := some (Dec.mk 100 0)
    weightClass := "90.0"
    divisionRaw := none
    divisionBase := none
    testing := none
    lift := "Squat"
    recordType := ""
    recordName := ""
    sex := none
    equipment := none
    date := none
    location := none }

/-- A total record in the string class "90" (numeric value 90). -/
def c8recY : Record :=
  { fullName := "Y"
    weight := some (Dec.mk 100 0)
    weightClass := "90"
    divisionRaw := none
    divisionBase := none
    testing := none
    lift := "Total"
    recordType := ""
    recordName := ""
    sex := none
    equipment := none
    date := none
    location := none }

/-! ### Order lemmas for the sort keys -/

theorem pow10_pos (e : Nat) : (0 : Int) < pow10 e := by
  unfold pow10
  exact Int.ofNat_pos.mpr (pow_pos (by norm_num) e)

theorem dcross_lt_trans {x y z : Dec} (h1 : x.m * pow10 y.e < y.m * pow10 x.e)
    (h2 : y.m * pow10 z.e < z.m * pow10 y.e) : x.m * pow10 z.e < z.m * pow10 x.e := by
  have a1 := mul_lt_mul_of_pos_right h1 (pow10_pos z.e)
  have a2 := mul_lt_mul_of_pos_right h2 (pow10_pos x.e)
  have a3 : x.m * pow10 z.e * pow10 y.e < z.m * pow10 x.e * pow10 y.e := by
    ring_nf at a1 a2 ⊢
    linarith
  exact lt_of_mul_lt_mul_right a3 (pow10_pos y.e).le

theorem dcross_lt_of_lt_eq {x y z : Dec} (h1 : x.m * pow10 y.e < y.m * pow10 x.e)
    (h2 : y.m * pow10 z.e = z.m * pow10 y.e) : x.m * pow10 z.e < z.m * pow10 x.e := by
  have a1 := mul_lt_mul_of_pos_right h1 (pow10_pos z.e)
  have a2 := congrArg (fun t => t * pow10 x.e) h2
  have a3 : x.m * pow10 z.e * pow10 y.e < z.m * pow10 x.e * pow10 y.e := by
    simp only at a2
    ring_nf at a1 a2 ⊢
    linarith
  exact lt_of_mul_lt_mul_right a3 (pow10_pos y.e).le

theorem dcross_lt_of_eq_lt {x y z : Dec} (h1 : x.m * pow10 y.e = y.m * pow10 x.e)
    (h2 : y.m * pow10 z.e < z.m * pow10 y.e) : x.m * pow10 z.e < z.m * pow10 x.e := by
  have a1 := congrArg (fun t => t * pow10 z.e) h1
  have a2 := mul_lt_mul_of_pos_right h2 (pow10_pos x.e)
  have a3 : x.m * pow10 z.e * pow10 y.e < z.m * pow10 x.e * pow10 y.e := by
    simp only at a1
    ring_nf at a1 a2 ⊢
    linarith
  exact lt_of_mul_lt_mul_right a3 (pow10_pos y.e).le

theorem dcross_eq_trans {x y z : Dec} (h1 : x.m * pow10 y.e = y.m * pow10 x.e)
    (h2 : y.m * pow10 z.e = z.m * pow10 y.e) : x.m * pow10 z.e = z.m * pow10 x.e := by
  have a1 := congrArg (fun t => t * pow10 z.e) h1
  have a2 := congrArg (fun t => t * pow10 x.e) h2
  simp only at a1 a2
  have a3 : x.m * pow10 z.e * pow10 y.e = z.m * pow10 x.e * pow10 y.e := by
    ring_nf at a1 a2 ⊢
    linarith
  exact mul_right_cancel₀ (pow10_pos y.e).ne' a3

theorem dcross_le_trans {x y z : Dec} (h1 : x.m * pow10 y.e ≤ y.m * pow10 x.e)
    (h2 : y.m * pow10 z.e ≤ z.m * pow10 y.e) : x.m * pow10 z.e ≤ z.m * pow10 x.e := by
  have a1 := mul_le_mul_of_nonneg_right h1 (pow10_pos z.e).le
  have a2 := mul_le_mul_of_nonneg_right h2 (pow10_pos x.e).le
  have a3 : x.m * pow10 z.e * pow10 y.e ≤ z.m * pow10 x.e * pow10 y.e := by
    ring_nf at a1 a2 ⊢
    linarith
  exact le_of_mul_le_mul_right a3 (pow10_pos y.e)

theorem dLT_asymm {a b : Option Dec} (h : dLT a b = true) : dLT b a = false := by
  cases a <;> cases b <;> simp_all [dLT]
  linarith

theorem dLT_trans {a b c : Option Dec} (h1 : dLT a b = true) (h2 : dLT b c = true) :
    dLT a c = true := by
  cases a <;> cases b <;> cases c <;> simp_all [dLT]
  exact dcross_lt_trans h1 h2

theorem dLT_lt_of_lt_eqv {a b c : Option Dec} (h : dLT a b = true) (h1 : dLT b c = false)
    (h2 : dLT c b = false) : dLT a c = true := by
  cases a <;> cases b <;> cases c <;> simp_all [dLT]
  exact dcross_lt_of_lt_eq h (le_antisymm h2 h1)

theorem dLT_lt_of_eqv_lt {a b c : Option Dec} (h1 : dLT a b = false) (h2 : dLT b a = false)
    (h : dLT b c = true) : dLT a c = true := by
  cases a <;> cases b <;> cases c <;> simp_all [dLT]
  exact dcross_lt_of_eq_lt (le_antisymm h2 h1) h

theorem dLT_eqv_trans {a b c : Option Dec} (h1 : dLT a b = false) (h2 : dLT b a = false)
    (h3 : dLT b c = false) (h4 : dLT c b = false) : dLT a c = false ∧ dLT c a = false := by
  cases a <;> cases b <;> cases c <;> simp_all [dLT]
  have he := dcross_eq_trans (le_antisymm h2 h1) (le_antisymm h4 h3)
  constructor <;> linarith

theorem cLT_irrefl : ∀ l : List Char, charListLT l l = false
  | [] => rfl
  | c :: cs => by simp [charListLT, cLT_irrefl cs]

theorem cLT_trans : ∀ a b c : List Char, charListLT a b = true → charListLT b c = true →
    charListLT a c = true
  | [], [], _, h1, _ => by simp [charListLT] at h1
  | [], _ :: _, [], _, h2 => by simp [charListLT] at h2
  | [], _ :: _, _ :: _, _, _ => by simp [charListLT]
  | _ :: _, [], _, h1, _ => by simp [charListLT] at h1
  | _ :: _, _ :: _, [], _, h2 => by simp [charListLT] at h2
  | x :: xs, y :: ys, z :: zs, h1, h2 => by
    rcases Nat.lt_trichotomy x.toNat y.toNat with hxy | hxy | hxy
    · rcases Nat.lt_trichotomy y.toNat z.toNat with hyz | hyz | hyz
      · have hxz := Nat.lt_trans hxy hyz
        simp [charListLT, hxz]
      · have hxz : x.toNat < z.toNat := by omega
        simp [charListLT, hxz]
      · have e1 : ¬ y.toNat < z.toNat := by omega
        simp [charListLT, e1, hyz] at h2
    · have e1 : ¬ x.toNat < y.toNat := by omega
      have e2 : ¬ y.toNat < x.toNat := by omega
      have h1' : charListLT xs ys = true := by simpa [charListLT, e1, e2] using h1
      rcases Nat.lt_trichotomy y.toNat z.toNat with hyz | hyz | hyz
      · have hxz : x.toNat < z.toNat := by omega
        simp [charListLT, hxz]
      · have e3 : ¬ y.toNat < z.toNat := by omega
        have e4 : ¬ z.toNat < y.toNat := by omega
        have h2' : charListLT ys zs = true := by simpa [charListLT, e3, e4] using h2
        have e5 : ¬ x.toNat < z.toNat := by omega
        have e6 : ¬ z.toNat < x.toNat := by omega
        simpa [charListLT, e5, e6] using cLT_trans xs ys zs h1' h2'
      · have e3 : ¬ y.toNat < z.toNat := by omega
        simp [charListLT, e3, hyz] at h2
    · have e1 : ¬ x.toNat < y.toNat := by omega
      simp [charListLT, e1, hxy] at h1

theorem cLT_eq_of_not : ∀ a b : List Char, charListLT a b = false → charListLT b a = false →
    a = b
  | [], [], _, _ => rfl
  | [], _ :: _, h1, _ => by simp [charListLT] at h1
  | _ :: _, [], _, h2 => by simp [charListLT] at h2
  | x :: xs, y :: ys, h1, h2 => by
    rcases Nat.lt_trichotomy x.toNat y.toNat with h | h | h
    · simp [charListLT, h] at h1
    · have e1 : ¬ x.toNat < y.toNat := by omega
      have e2 : ¬ y.toNat < x.toNat := by omega
      have hxy : x = y := Char.eq_of_val_eq (UInt32.ext h)
      have h1' : charListLT xs ys = false := by simpa [charListLT, e1, e2] using h1
      have h2' : charListLT ys xs = false := by simpa [charListLT, e1, e2] using h2
      rw [hxy, cLT_eq_of_not xs ys h1' h2']
    · simp [charListLT, h] at h2

theorem strLT_eq_of_not {a b : String} (h1 : strLT a b = false) (h2 : strLT b a = false) :
    a = b := by
  cases a
  cases b
  have := cLT_eq_of_not _ _ h1 h2
  simp_all

theorem wGE_refl (a : Option Dec) : wGE a a = true := by
  cases a <;> simp [wGE]

theorem wGE_total (a b : Option Dec) : wGE a b = true ∨ wGE b a = true := by
  cases a <;> cases b <;> simp_all [wGE]
  exact Int.le_total _ _

theorem wGE_trans {a b c : Option Dec} (h1 : wGE a b = true) (h2 : wGE b c = true) :
    wGE a c = true := by
  cases a <;> cases b <;> cases c <;> simp_all [wGE]
  exact dcross_le_trans h2 h1

theorem sortKeyLE_iff (r s : Record) : sortKeyLE r s = true ↔
    (dLT (classNumD r) (classNumD s) = true ∨
     (dLT (classNumD r) (classNumD s) = false ∧ dLT (classNumD s) (classNumD r) = false ∧
      (strLT r.weightClass s.weightClass = true ∨
       (strLT r.weightClass s.weightClass = false ∧ strLT s.weightClass r.weightClass = false ∧
        liftIdx r.lift ≤ liftIdx s.lift)))) := by
  unfold sortKeyLE
  split_ifs with h1 h2 h3 h4 <;> simp_all

theorem sortKeyLE_total (r s : Record) : sortKeyLE r s = true ∨ sortKeyLE s r = true := by
  by_cases h1 : dLT (classNumD r) (classNumD s) = true
  · exact Or.inl ((sortKeyLE_iff r s).mpr (Or.inl h1))
  by_cases h2 : dLT (classNumD s) (classNumD r) = true
  · exact Or.inr ((sortKeyLE_iff s r).mpr (Or.inl h2))
  rw [Bool.not_eq_true] at h1 h2
  by_cases h3 : strLT r.weightClass s.weightClass = true
  · exact Or.inl ((sortKeyLE_iff r s).mpr (Or.inr ⟨h1, h2, Or.inl h3⟩))
  by_cases h4 : strLT s.weightClass r.weightClass = true
  · exact Or.inr ((sortKeyLE_iff s r).mpr (Or.inr ⟨h2, h1, Or.inl h4⟩))
  rw [Bool.not_eq_true] at h3 h4
  rcases Nat.le_total (liftIdx r.lift) (liftIdx s.lift) with h5 | h5
  · exact Or.inl ((sortKeyLE_iff r s).mpr (Or.inr ⟨h1, h2, Or.inr ⟨h3, h4, h5⟩⟩))
  · exact Or.inr ((sortKeyLE_iff s r).mpr (Or.inr ⟨h2, h1, Or.inr ⟨h4, h3, h5⟩⟩))

theorem sortKeyLE_trans (r s t : Record) (h1 : sortKeyLE r s = true)
    (h2 : sortKeyLE s t = true) : sortKeyLE r t = true := by
  rw [sortKeyLE_iff] at h1 h2 ⊢
  rcases h1 with h1 | ⟨ha1, ha2, hstr1⟩
  · rcases h2 with h2 | ⟨hb1, hb2, _⟩
    · exact Or.inl (dLT_trans h1 h2)
    · exact Or.inl (dLT_lt_of_lt_eqv h1 hb1 hb2)
  · rcases h2 with h2 | ⟨hb1, hb2, hstr2⟩
    · exact Or.inl (dLT_lt_of_eqv_lt ha1 ha2 h2)
    · obtain ⟨hc1, hc2⟩ := dLT_eqv_trans ha1 ha2 hb1 hb2
      refine Or.inr ⟨hc1, hc2, ?_⟩
      rcases hstr1 with hs1 | ⟨hs1a, hs1b, hl1⟩
      · rcases hstr2 with hs2 | ⟨hs2a, hs2b, _⟩
        · exact Or.inl (cLT_trans _ _ _ hs1 hs2)
        · have he : s.weightClass = t.weightClass := strLT_eq_of_not hs2a hs2b
          exact Or.inl (he ▸ hs1)
      · rcases hstr2 with hs2 | ⟨hs2a, hs2b, hl2⟩
        · have he : r.weightClass = s.weightClass := strLT_eq_of_not hs1a hs1b
          exact Or.inl (he ▸ hs2)
        · have he1 : r.weightClass = s.weightClass := strLT_eq_of_not hs1a hs1b
          have he2 : s.weightClass = t.weightClass := strLT_eq_of_not hs2a hs2b
          refine Or.inr ⟨by rw [he1, he2]; exact cLT_irrefl _, by rw [he1, he2]; exact cLT_irrefl _, ?_⟩
          exact Nat.le_trans hl1 hl2

/-! ### Deduplication lemmas -/

theorem dedupCL_subset : ∀ (l : List Record) (seen : List (String × String)) (r : Record),
    r ∈ dedupCL l seen → r ∈ l
  | [], _, _, h => by simp [dedupCL] at h
  | a :: t, seen, r, h => by
    unfold dedupCL at h
    split_ifs at h with hk
    · exact List.mem_cons_of_mem a (dedupCL_subset t seen r h)
    · rcases List.mem_cons.mp h with rfl | h
      · exact List.mem_cons_self _ _
      · exact List.mem_cons_of_mem a (dedupCL_subset t _ r h)

theorem dedupCL_notin_seen : ∀ (l : List Record) (seen : List (String × String)) (r : Record),
    r ∈ dedupCL l seen → keyCL r ∉ seen
  | [], _, _, h => by simp [dedupCL] at h
  | a :: t, seen, r, h => by
    unfold dedupCL at h
    split_ifs at h with hk
    · exact dedupCL_notin_seen t seen r h
    · rcases List.mem_cons.mp h with rfl | h
      · exact hk
      · have := dedupCL_notin_seen t _ r h
        intro hc
        exact this (List.mem_cons_of_mem _ hc)

theorem dedupCL_pairwise : ∀ (l : List Record) (seen : List (String × String)),
    List.Pairwise (fun a b => keyCL a ≠ keyCL b) (dedupCL l seen)
  | [], _ => List.Pairwise.nil
  | a :: t, seen => by
    unfold dedupCL
    split_ifs with hk
    · exact dedupCL_pairwise t seen
    · refine List.pairwise_cons.mpr ⟨?_, dedupCL_pairwise t _⟩
      intro b hb
      have := dedupCL_notin_seen t _ b hb
      intro hc
      exact this (hc ▸ List.mem_cons_self _ _)

theorem dedupCL_max : ∀ (l : List Record) (seen : List (String × String)) (r : Record),
    List.Pairwise wDescRel l → r ∈ dedupCL l seen →
    ∀ s ∈ l, keyCL s = keyCL r → wGE r.weight s.weight = true
  | [], _, _, _, _ => by intro s hs; simp at hs
  | a :: t, seen, r, hp, hr => by
    rcases List.pairwise_cons.mp hp with ⟨ha, ht⟩
    intro s hs hk
    unfold dedupCL at hr
    split_ifs at hr with hseen
    · rcases List.mem_cons.mp hs with rfl | hst
      · exact absurd (hk ▸ hseen) (dedupCL_notin_seen t seen r hr)
      · exact dedupCL_max t seen r ht hr s hst hk
    · rcases List.mem_cons.mp hr with rfl | hrt
      · rcases List.mem_cons.mp hs with rfl | hst
        · exact wGE_refl _
        · exact ha s hst
      · rcases List.mem_cons.mp hs with rfl | hst
        · have := dedupCL_notin_seen t _ r hrt
          exact absurd (hk ▸ List.mem_cons_self _ _) this
        · exact dedupCL_max t _ r ht hrt s hst hk

/-! ### Lemmas about the best-per-group reduction -/

theorem pairwise_key_filter_len {l : List Record}
    (h : List.Pairwise (fun a b => keyCL a ≠ keyCL b) l) (p : String × String) :
    (l.filter fun r => decide (keyCL r = p)).length ≤ 1 := by
  induction l with
  | nil => simp
  | cons a t ih =>
    rcases List.pairwise_cons.mp h with ⟨ha, ht⟩
    by_cases hk : keyCL a = p
    · have hnil : t.filter (fun r => decide (keyCL r = p)) = [] := by
        refine List.filter_eq_nil_iff.mpr ?_
        intro b hb
        simp only [decide_eq_true_eq]
        intro hbp
        exact ha b hb (hk.trans hbp.symm)
      simp [List.filter_cons, hk, hnil]
    · simp only [List.filter_cons, decide_eq_true_eq, hk, if_false]
      exact ih ht

theorem sorted_wDesc (df : List Record) :
    List.Pairwise wDescRel (List.insertionSort wDescRel df) :=
  @List.sorted_insertionSort Record wDescRel _
    ⟨fun a b => wGE_total a.weight b.weight⟩
    ⟨fun _ _ _ h1 h2 => wGE_trans h1 h2⟩ df

theorem sorted_best (df : List Record) :
    List.Pairwise sortRel (best_per_class_and_lift df) :=
  @List.sorted_insertionSort Record sortRel _
    ⟨sortKeyLE_total⟩
    ⟨sortKeyLE_trans⟩ (dedupCL (List.insertionSort wDescRel df) [])

/-- C2: for every input record sequence, best_per_class_and_lift returns
at most one record per distinct (weightClass, lift) pair, each returned
record comes from the input and its weight is maximal among the input
records sharing its pair (a missing weight counts below every number,
matching the pandas NaN placement), and the empty input yields the empty
output. -/
theorem best_per_class_and_lift_spec :
    best_per_class_and_lift [] = [] ∧
    (∀ (df : List Record) (p : String × String),
      ((best_per_class_and_lift df).filter fun r => decide (keyCL r = p)).length ≤ 1) ∧
    (∀ (df : List Record) (r : Record), r ∈ best_per_class_and_lift df → r ∈ df) ∧
    (∀ (df : List Record) (r s : Record), r ∈ best_per_class_and_lift df → s ∈ df →
      keyCL s = keyCL r → wGE r.weight s.weight = true) := by
  refine ⟨rfl, ?_, ?_, ?_⟩
  · intro df p
    have hperm := List.perm_insertionSort sortRel
      (dedupCL (List.insertionSort wDescRel df) [])
    have hpair : List.Pairwise (fun a b => keyCL a ≠ keyCL b)
        (best_per_class_and_lift df) :=
      (hperm.pairwise_iff fun hab => Ne.symm hab).mpr
        (dedupCL_pairwise (List.insertionSort wDescRel df) [])
    exact pairwise_key_filter_len hpair p
  · intro df r hr
    have hperm := List.perm_insertionSort sortRel
      (dedupCL (List.insertionSort wDescRel df) [])
    have hrD := hperm.mem_iff.mp hr
    have hrS := dedupCL_subset _ _ r hrD
    exact (List.mem_insertionSort wDescRel).mp hrS
  · intro df r s hr hs hk
    have hperm := List.perm_insertionSort sortRel
      (dedupCL (List.insertionSort wDescRel df) [])
    have hrD := hperm.mem_iff.mp hr
    have hsS : s ∈ List.insertionSort wDescRel df :=
      (List.mem_insertionSort wDescRel).mpr hs
    exact dedupCL_max _ [] r (sorted_wDesc df) hrD s hsS hk

/-- Witness for best_per_class_and_lift_spec: on a two-record input
sharing the pair (SHW, Squat), the retained record outweighs the other. -/
theorem best_per_class_and_lift_spec_witness :
    wGE c2recB.weight c2recA.weight = true :=
  best_per_class_and_lift_spec.2.2.2 [c2recA, c2recB] c2recB c2recA
    (by decide) (by decide) (by decide)

/-- C8 counterexample: on two records whose classes "90.0" and "90" have
the same numeric value, the output of best_per_class_and_lift is ordered
by the string tie-break ("90" before "90.0"), which violates the claimed
ordering (secondary key lift: Squat before Total). -/
theorem best_ordering_counterexample :
    best_per_class_and_lift [c8recX, c8recY] = [c8recY, c8recX] ∧
    claimLE c8recY c8recX = false ∧ claimLE c8recX c8recY = true ∧
    ¬ List.Pairwise (fun a b => claimLE a b = true)
      (best_per_class_and_lift [c8recX, c8recY]) := by
  refine ⟨by decide, by decide, by decide, by decide⟩

/-- C8 amended: the output of best_per_class_and_lift is sorted
lexicographically by the numeric class value (non-numeric classes after
all numeric ones), then by the class string (also between numerically
equal classes), then by the fixed lift order with unknown labels last. -/
theorem best_per_class_and_lift_sorted (df : List Record) :
    List.Pairwise (fun a b =>
      dLT (classNumD a) (classNumD b) = true ∨
      (dLT (classNumD a) (classNumD b) = false ∧ dLT (classNumD b) (classNumD a) = false ∧
       (strLT a.weightClass b.weightClass = true ∨
        (strLT a.weightClass b.weightClass = false ∧
         strLT b.weightClass a.weightClass = false ∧
         liftIdx a.lift ≤ liftIdx b.lift)))) (best_per_class_and_lift df) :=
  (sorted_best df).imp fun hab => (sortKeyLE_iff _ _).mp hab

/-! ### Inversion of the normalizer -/

theorem normRow_inv {row : RawRow} {r : Record} (h : normRow row = some r) :
    ∃ name w, row.fullName = some name ∧ row.weight = some w ∧
      classStr row.weightClass ∉ INVALID_WEIGHT_CLASSES ∧
      r = { fullName := name
            weight := parseNum w
            weightClass := classStr row.weightClass
            divisionRaw := row.division.map strTrim
            divisionBase := (row.division.map strTrim).map stripDT
            testing := (row.division.map strTrim).map fun d =>
              if endsDT d then "Tested" else "Untested"
            lift := mapLift row.lift
            recordType := row.recordType.getD ""
            recordName := row.recordName.getD ""
            sex := row.sex
            equipment := row.equipment
            date := row.date
            location := row.location } := by
  unfold normRow at h
  rcases hf : row.fullName with _ | name <;> rw [hf] at h
  · cases h
  rcases hw : row.weight with _ | w <;> rw [hw] at h
  · cases h
  simp only at h
  split_ifs at h with hc
  exact ⟨name, w, rfl, rfl, hc, (Option.some_inj.mp h).symm⟩

/-- C1 counterexample: a raw row whose Weight cell is present but fails
numeric parsing is retained (with a NaN numeric weight), not discarded:
the notna filter runs before to_numeric(errors="coerce"). -/
theorem load_data_weight_counterexample :
    load_data [c1rowBad] = [c1recBad] ∧ c1recBad.weight = none :=
  ⟨by decide, rfl⟩

/-- C1 amended: every retained record has a weight class outside the
artefact set and stems from a raw row whose Full Name and Weight cells
are both present, its weight being the numeric coercion of the Weight
cell (none when parsing fails); rows missing Full Name or Weight are
discarded, in particular the specification scenario of an empty-name
row (an empty CSV cell reads as NaN). -/
theorem load_data_invariants :
    (∀ (rows : List RawRow) (r : Record), r ∈ load_data rows →
      r.weightClass ∉ INVALID_WEIGHT_CLASSES ∧
      ∃ row ∈ rows, row.fullName = some r.fullName ∧
        ∃ w, row.weight = some w ∧ r.weight = parseNum w) ∧
    (∀ row : RawRow, row.fullName = none ∨ row.weight = none → normRow row = none) ∧
    load_data [c1rowNoName] = [] := by
  refine ⟨?_, ?_, by decide⟩
  · intro rows r hr
    obtain ⟨row, hrow, hn⟩ := List.mem_filterMap.mp hr
    obtain ⟨name, w, hf, hw, hc, hrec⟩ := normRow_inv hn
    subst hrec
    exact ⟨hc, row, hrow, by simp [hf], w, hw, rfl⟩
  · intro row hrow
    rcases hf : row.fullName with _ | name <;> rcases hw : row.weight with _ | w <;>
      simp_all [normRow]

/-- Witness for load_data_invariants: the row with the missing Full Name
cell is dropped by the normalizer. -/
theorem load_data_invariants_witness : normRow c1rowNoName = none :=
  load_data_invariants.2.1 c1rowNoName (Or.inl rfl)

/-! ### Division string lemmas -/

theorem stripDT_of_not {d : String} (h : endsDT d = false) : stripDT d = d := by
  simp [stripDT, h]

theorem stripDT_append {d : String} (h : endsDT d = true) : stripDT d ++ "DT" = d := by
  obtain ⟨l⟩ := d
  have h2 : l.reverse.take 2 = ['T', 'D'] := by simpa [endsDT] using h
  have hs : l.reverse = ['T', 'D'] ++ l.reverse.drop 2 := by
    rw [← h2, List.take_append_drop]
  have hlhs : stripDT ⟨l⟩ = ⟨(l.reverse.drop 2).reverse⟩ := by simp [stripDT, h]
  rw [hlhs]
  show String.mk ((l.reverse.drop 2).reverse ++ ['D', 'T']) = String.mk l
  congr 1
  calc (l.reverse.drop 2).reverse ++ ['D', 'T']
      = (['T', 'D'] ++ l.reverse.drop 2).reverse := by rw [List.reverse_append]; rfl
    _ = l.reverse.reverse := by rw [← hs]
    _ = l := l.reverse_reverse

theorem endsDT_stripDT (d : String) : endsDT (stripDT d) = endsDTDT d := by
  obtain ⟨l⟩ := d
  by_cases h : endsDT ⟨l⟩ = true
  · have h2 : l.reverse.take 2 = ['T', 'D'] := by simpa [endsDT] using h
    have hlhs : stripDT ⟨l⟩ = ⟨(l.reverse.drop 2).reverse⟩ := by simp [stripDT, h]
    rw [hlhs]
    show ((l.reverse.drop 2).reverse.reverse.take 2 == ['T', 'D'])
      = (l.reverse.take 4 == ['T', 'D', 'T', 'D'])
    rw [List.reverse_reverse]
    have h4 : l.reverse.take 4 = ['T', 'D'] ++ (l.reverse.drop 2).take 2 := by
      rw [show (4 : Nat) = 2 + 2 from rfl, List.take_add, h2]
    rw [h4]
    cases hX : ((l.reverse.drop 2).take 2 == ['T', 'D'])
    · have hne : (l.reverse.drop 2).take 2 ≠ ['T', 'D'] := by simpa using hX
      symm
      simp only [beq_eq_false_iff_ne]
      intro hh
      exact hne (List.append_cancel_left hh)
    · have hX' : (l.reverse.drop 2).take 2 = ['T', 'D'] := by simpa using hX
      rw [hX']
      rfl
  · have hb : endsDT ⟨l⟩ = false := by simpa using h
    rw [stripDT_of_not hb, hb]
    cases h4 : endsDTDT ⟨l⟩
    · rfl
    · have h4' : l.reverse.take 4 = ['T', 'D', 'T', 'D'] := by simpa [endsDTDT] using h4
      have h2 : l.reverse.take 2 = ['T', 'D'] := by
        have := congrArg (fun t => List.take 2 t) h4'
        simpa [List.take_take] using this
      have : endsDT ⟨l⟩ = true := by simp [endsDT, h2]
      rw [this] at hb
      cases hb

/-- C4: for every retained record, divisionBase is divisionRaw with one
trailing "DT" removed when present (the removed suffix reattaches to give
back divisionRaw) and testing is Tested exactly on the "DT" suffix; a
division of exactly "DT" yields divisionBase "" and testing Tested. -/
theorem division_fields_spec :
    (∀ (rows : List RawRow) (r : Record), r ∈ load_data rows →
      r.divisionBase = r.divisionRaw.map stripDT ∧
      ∀ d, r.divisionRaw = some d →
        (endsDT d = true → r.divisionBase = some (stripDT d) ∧
          stripDT d ++ "DT" = d ∧ r.testing = some "Tested") ∧
        (endsDT d = false → r.divisionBase = some d ∧ r.testing = some "Untested")) ∧
    (load_data [c4rowDT]).map (fun r => (r.divisionBase, r.testing)) =
      [(some "", some "Tested")] := by
  refine ⟨?_, by decide⟩
  intro rows r hr
  obtain ⟨row, hrow, hn⟩ := List.mem_filterMap.mp hr
  obtain ⟨name, w, hf, hw, hc, hrec⟩ := normRow_inv hn
  subst hrec
  refine ⟨rfl, ?_⟩
  intro d hd
  simp only at hd
  constructor
  · intro he
    refine ⟨?_, stripDT_append he, ?_⟩
    · show (row.division.map strTrim).map stripDT = some (stripDT d)
      rw [hd]
      rfl
    · show (row.division.map strTrim).map
        (fun d => if endsDT d then "Tested" else "Untested") = some "Tested"
      rw [hd]
      simp [he]
  · intro he
    refine ⟨?_, ?_⟩
    · show (row.division.map strTrim).map stripDT = some d
      rw [hd]
      simp [stripDT_of_not he]
    · show (row.division.map strTrim).map
        (fun d => if endsDT d then "Tested" else "Untested") = some "Untested"
      rw [hd]
      simp [he]

/-- Witness for division_fields_spec at the division JuniorDT. -/
theorem division_fields_spec_witness :
    c4rec.divisionBase = some (stripDT "JuniorDT") ∧
      stripDT "JuniorDT" ++ "DT" = "JuniorDT" ∧ c4rec.testing = some "Tested" :=
  ((division_fields_spec.1 [c4row] c4rec (by decide)).2 "JuniorDT" (by decide)).1
    (by decide)

/-- C5 counterexample: the row with division "DTDT" is retained and its
divisionBase "DT" still ends with "DT" (the anchored regex removes only
one trailing "DT"). -/
theorem divisionBase_counterexample :
    (load_data [c5row]).map Record.divisionBase = [some "DT"] ∧ endsDT "DT" = true :=
  ⟨by decide, by decide⟩

/-- C5 amended: for every retained record, divisionBase ends with "DT"
exactly when divisionRaw ends with "DTDT". -/
theorem divisionBase_trailing_DT :
    ∀ (rows : List RawRow) (r : Record), r ∈ load_data rows →
      ∀ b, r.divisionBase = some b →
        (endsDT b = true ↔ ∃ d, r.divisionRaw = some d ∧ endsDTDT d = true) := by
  intro rows r hr b hb
  obtain ⟨row, hrow, hn⟩ := List.mem_filterMap.mp hr
  obtain ⟨name, w, hf, hw, hc, hrec⟩ := normRow_inv hn
  subst hrec
  rcases hdr : row.division.map strTrim with _ | d
  · rw [hdr] at hb
    simp at hb
  · rw [hdr] at hb
    have hb3 : stripDT d = b := Option.some_inj.mp hb
    subst hb3
    constructor
    · intro he
      exact ⟨d, rfl, (endsDT_stripDT d) ▸ he⟩
    · rintro ⟨d2, hd2, h4⟩
      have hd4 : d = d2 := Option.some_inj.mp hd2
      subst hd4
      rw [endsDT_stripDT]
      exact h4

/-- Witness for divisionBase_trailing_DT at the division "DTDT". -/
theorem divisionBase_trailing_DT_witness :
    endsDT "DT" = true ↔ ∃ d, c5rec.divisionRaw = some d ∧ endsDTDT d = true :=
  divisionBase_trailing_DT [c5row] c5rec (by decide) "DT" (by decide)

/-- C6 counterexample: a missing Sex cell stays missing in the retained
record instead of becoming the empty string (only Record Type, Lift and
Record Name get fillna("")). -/
theorem missing_fields_counterexample :
    (load_data [c6row]).map Record.sex = [none] ∧
    (load_data [c6row]).map Record.sex ≠ [some ""] :=
  ⟨by decide, by decide⟩

/-- C6 amended: every retained record takes recordType, recordName and
lift from its source row with missing values replaced by the empty
string, while sex, equipment, date and eventLocation pass through
unchanged (missing stays missing). -/
theorem missing_fields_spec :
    ∀ (rows : List RawRow) (r : Record), r ∈ load_data rows →
      ∃ row ∈ rows, r.sex = row.sex ∧ r.equipment = row.equipment ∧
        r.date = row.date ∧ r.location = row.location ∧
        r.recordType = row.recordType.getD "" ∧
        r.recordName = row.recordName.getD "" ∧ r.lift = mapLift row.lift := by
  intro rows r hr
  obtain ⟨row, hrow, hn⟩ := List.mem_filterMap.mp hr
  obtain ⟨name, w, hf, hw, hc, hrec⟩ := normRow_inv hn
  subst hrec
  exact ⟨row, hrow, rfl, rfl, rfl, rfl, rfl, rfl, rfl⟩

/-- Witness for missing_fields_spec: the record produced from the row
with every optional cell missing keeps sex missing and gets an empty
recordType. -/
theorem missing_fields_spec_witness : c6rec.sex = none ∧ c6rec.recordType = "" := by
  obtain ⟨row, hrow, hsex, _, _, _, hrt, _⟩ := missing_fields_spec [c6row] c6rec (by decide)
  have hr : row = c6row := List.mem_singleton.mp hrow
  subst hr
  exact ⟨hsex, hrt⟩

/-- C9: the lift column maps the known codes S, B, D, T, Total through
LIFT_MAP, passes every unknown code through unchanged, turns a missing
lift into the empty string, and every retained record gets its lift this
way from its source row. -/
theorem lift_mapping_spec :
    (mapLift (some "S") = "Squat" ∧ mapLift (some "B") = "Bench" ∧
     mapLift (some "D") = "Deadlift" ∧ mapLift (some "T") = "Total" ∧
     mapLift (some "Total") = "Total" ∧ mapLift (some "X") = "X" ∧
     mapLift none = "") ∧
    (∀ s : String, s ∉ LIFT_MAP.map Prod.fst → mapLift (some s) = s) ∧
    (∀ (rows : List RawRow) (r : Record), r ∈ load_data rows →
      ∃ row ∈ rows, r.lift = mapLift row.lift) := by
  refine ⟨by decide, ?_, ?_⟩
  · intro s hs
    simp only [LIFT_MAP, List.map, List.mem_cons, List.not_mem_nil, or_false,
      not_or] at hs
    obtain ⟨h1, h2, h3, h4, h5⟩ := hs
    have e1 : (s == "S") = false := beq_eq_false_iff_ne.mpr h1
    have e2 : (s == "B") = false := beq_eq_false_iff_ne.mpr h2
    have e3 : (s == "D") = false := beq_eq_false_iff_ne.mpr h3
    have e4 : (s == "T") = false := beq_eq_false_iff_ne.mpr h4
    have e5 : (s == "Total") = false := beq_eq_false_iff_ne.mpr h5
    simp [mapLift, LIFT_MAP, List.lookup, e1, e2, e3, e4, e5]
  · intro rows r hr
    obtain ⟨row, hrow, hn⟩ := List.mem_filterMap.mp hr
    obtain ⟨name, w, hf, hw, hc, hrec⟩ := normRow_inv hn
    subst hrec
    exact ⟨row, hrow, rfl⟩

/-- Witness for lift_mapping_spec: an unknown code passes through. -/
theorem lift_mapping_spec_witness : mapLift (some "Hello") = "Hello" :=
  lift_mapping_spec.2.1 "Hello" (by decide)

/-! ### Regular-expression lemmas -/

theorem lowerChar_eq_of_not_letter {c m : Char} (hm : m.toNat < 97 ∨ 122 < m.toNat)
    (h : lowerChar c = m) : c = m := by
  unfold lowerChar at h
  split at h <;> first | assumption | (subst h; exact absurd hm (by decide))

theorem metachar_not_letter : ∀ m ∈ METACHARS, m.toNat < 97 ∨ 122 < m.toNat := by
  decide

theorem mcFree_spec {pat : String} (h : mcFree pat = true) :
    ∀ c ∈ pat.data, c ∉ METACHARS := by
  simp only [mcFree, List.all_eq_true, Bool.not_eq_true',
    decide_eq_false_iff_not] at h
  exact h

theorem splitBar_no_bar : ∀ l : List Char, (∀ c ∈ l, c ≠ '|') → splitBar l = [l]
  | [], _ => rfl
  | c :: cs, h => by
    have hc : c ≠ '|' := h c (List.mem_cons_self _ _)
    have ih := splitBar_no_bar cs fun d hd => h d (List.mem_cons_of_mem _ hd)
    simp [splitBar, ih, hc]

theorem map_tokOf_lit : ∀ l : List Char, (∀ c ∈ l, c ≠ '.') → l.map tokOf = l.map Tok.lit
  | [], _ => rfl
  | c :: cs, h => by
    have hc : c ≠ '.' := h c (List.mem_cons_self _ _)
    have ih := map_tokOf_lit cs fun d hd => h d (List.mem_cons_of_mem _ hd)
    simp [tokOf, ih, hc]

theorem regexContains_eq_lit {pat : String} (h : mcFree pat = true) (s : String) :
    regexContains pat s = litContains pat s := by
  have hs := mcFree_spec h
  have hbar : ∀ c ∈ pat.data, c ≠ '|' := by
    intro c hc he
    subst he
    exact hs _ hc (by decide)
  have hdot : ∀ c ∈ pat.data, c ≠ '.' := by
    intro c hc he
    subst he
    exact hs _ hc (by decide)
  unfold regexContains litContains
  rw [splitBar_no_bar pat.data hbar]
  simp [map_tokOf_lit pat.data hdot]

theorem mcFree_lower {pat : String} (h : mcFree pat = true) : mcFree (lowerStr pat) = true := by
  simp only [mcFree, lowerStr, List.all_map, List.all_eq_true, Function.comp,
    Bool.not_eq_true', decide_eq_false_iff_not] at h ⊢
  intro c hc hmem
  have he : c = lowerChar c :=
    lowerChar_eq_of_not_letter (metachar_not_letter _ hmem) rfl
  rw [← he] at hmem
  exact h c hc hmem

theorem strContainsCI_eq_lit {pat : String} (h : mcFree pat = true) (s : String) :
    strContainsCI pat s = litContainsCI pat s := by
  unfold strContainsCI litContainsCI
  exact regexContains_eq_lit (mcFree_lower h) _

theorem triple_pat (s : String) :
    strContainsCI "Single|Bench Only|Deadlift Only" s =
      (litContainsCI "Single" s || litContainsCI "Bench Only" s
        || litContainsCI "Deadlift Only" s) := by
  show (litContainsCI "Single" s || (litContainsCI "Bench Only" s
    || (litContainsCI "Deadlift Only" s || false))) = _
  simp [Bool.or_assoc]

/-- C7: the Full Power tab keeps exactly the records whose recordType
does not case-insensitively contain "Single", and the Single Lifts tab
keeps exactly the records whose recordType case-insensitively contains
"Single", "Bench Only" or "Deadlift Only" and whose lift is Bench or
Deadlift (a conjunction of the two conditions). -/
theorem discipline_tabs_spec :
    ∀ (rs : List Record) (r : Record),
      (r ∈ full_power_records rs ↔ r ∈ rs ∧ litContainsCI "Single" r.recordType = false) ∧
      (r ∈ single_lifts_records rs ↔ r ∈ rs ∧
        (litContainsCI "Single" r.recordType = true ∨
         litContainsCI "Bench Only" r.recordType = true ∨
         litContainsCI "Deadlift Only" r.recordType = true) ∧
        (r.lift = "Bench" ∨ r.lift = "Deadlift")) := by
  intro rs r
  constructor
  · rw [full_power_records, List.mem_filter]
    rw [strContainsCI_eq_lit (by decide)]
    simp
  · rw [single_lifts_records, List.mem_filter]
    rw [triple_pat]
    simp [List.contains, Bool.or_eq_true, Bool.and_eq_true, beq_iff_eq]
    tauto

/-- Witness for discipline_tabs_spec: a Bench Only bench record is kept
by the Single Lifts tab. -/
theorem discipline_tabs_spec_witness : c7bench ∈ single_lifts_records [c7bench] :=
  (discipline_tabs_spec [c7bench] c7bench).2.mpr
    ⟨List.mem_singleton.mpr rfl, Or.inr (Or.inl (by decide)), Or.inl rfl⟩

/-- C3 counterexample: a search for "." keeps a record whose names do
not contain a literal dot, because pandas str.contains treats the search
text as a regular expression in which the dot matches any character. -/
theorem search_regex_counterexample :
    apply_filters [c3john] (searchSel ".") = [c3john] ∧
    litContainsCI "." c3john.fullName = false ∧
    litContainsCI "." c3john.recordName = false :=
  ⟨by decide, by decide, by decide⟩

/-- C3 amended: for a non-empty search string free of every regex
metacharacter (on such strings re.search is exactly literal substring
search, so the embedding and pandas agree), the search filter keeps
exactly the records whose fullName or recordName case-insensitively
contains the search text as a literal substring; for general search text
the pattern is interpreted as a regular expression instead. -/
theorem search_filter_literal :
    ∀ (rs : List Record) (q : String), q ≠ "" → mcFree q = true →
      apply_filters rs (searchSel q) =
        rs.filter fun r => litContainsCI q r.fullName || litContainsCI q r.recordName := by
  intro rs q hq hm
  have h1 : apply_filters rs (searchSel q) =
      rs.filter fun r => strContainsCI q r.fullName || strContainsCI q r.recordName := by
    simp [apply_filters, searchSel, hq]
  rw [h1]
  exact List.filter_congr fun r hr => by
    rw [strContainsCI_eq_lit hm, strContainsCI_eq_lit hm]

/-- Witness for search_filter_literal: searching "jun" keeps June Smith
and drops John Doe. -/
theorem search_filter_literal_witness :
    apply_filters [c3june, c3john] (searchSel "jun") = [c3june] := by
  rw [search_filter_literal [c3june, c3john] "jun" (by decide) (by decide)]
  decide

/-- C10: a selection in which every dropdown is the "All" sentinel and
the search text is empty returns the input record list unchanged (same
records in the same order; the embedding is a pure function, matching
the pandas code which operates on a copy and never mutates its input). -/
theorem apply_filters_all_identity : ∀ df : List Record, apply_filters df allSel = df := by
  intro df
  simp [apply_filters, allSel]
